import Mathlib

/-!
Verification of the video-transcript / recipe-scraper service (src/main.py).

Python strings are modelled as `List Char`; Python dicts appearing in the
JSON-LD data model are modelled as association lists.  External collaborators
(the transcript provider, the yt-dlp metadata extractor and the HTTP client)
are modelled as oracles supplied to the endpoint functions, so that each
endpoint is a pure function of the oracle outcomes.
-/

namespace ServerTest

/-! ### Python string primitives over `List Char` -/

/-- Characters on which Python `str.splitlines` breaks a line. -/
def isLinebreak (c : Char) : Bool :=
  c = '\n' || c = '\r' || c = '\x0b' || c = '\x0c' || c = '\x1c' || c = '\x1d' ||
  c = '\x1e' || c = '\x85' || c = '\u2028' || c = '\u2029'

/-- Characters stripped by Python `str.strip()` (whitespace). -/
def isPySpace (c : Char) : Bool :=
  c = ' ' || c = '\t' || c = '\x1f' || c = '\xa0' || isLinebreak c

/-- Python `str.lstrip()`. -/
def lstrip (l : List Char) : List Char := l.dropWhile isPySpace

/-- Python `str.rstrip()`. -/
def rstrip (l : List Char) : List Char := (l.reverse.dropWhile isPySpace).reverse

/-- Python `str.strip()`. -/
def pyStrip (l : List Char) : List Char := rstrip (lstrip l)

/-- Python `str.upper()` (ASCII fragment). -/
def pyUpper (l : List Char) : List Char := l.map Char.toUpper

/-- Python `str.lower()` (ASCII fragment). -/
def pyLower (l : List Char) : List Char := l.map Char.toLower

/-- Worker for `splitlines`: `acc` holds the current line, reversed.
`\r\n` counts as a single line break; a trailing break produces no empty
final line, mirroring Python `str.splitlines`. -/
def splitGo : List Char → List Char → List (List Char)
  | [], acc => [acc.reverse]
  | [c], acc => if isLinebreak c then [acc.reverse] else [(c :: acc).reverse]
  | c :: d :: rest, acc =>
    if c = '\r' ∧ d = '\n' then
      acc.reverse :: (if rest.isEmpty then [] else splitGo rest [])
    else if isLinebreak c then
      acc.reverse :: splitGo (d :: rest) []
    else splitGo (d :: rest) (c :: acc)

/-- Python `str.splitlines()`. -/
def splitlines (l : List Char) : List (List Char) :=
  if l.isEmpty then [] else splitGo l []

/-- Python `" ".join(lines)`. -/
def joinSpace : List (List Char) → List Char
  | [] => []
  | [l] => l
  | l :: rest => l ++ ' ' :: joinSpace rest

/-- Python `s.replace("  ", " ")`: one left-to-right pass replacing each
non-overlapping pair of consecutive spaces with a single space. -/
def replaceDD : List Char → List Char
  | [] => []
  | [c] => [c]
  | c :: d :: rest =>
    if c = ' ' ∧ d = ' ' then ' ' :: replaceDD rest
    else c :: replaceDD (d :: rest)

/-- The string contains two consecutive space characters. -/
def hasRun2 : List Char → Bool
  | [] => false
  | [_] => false
  | c :: d :: rest => if c = ' ' ∧ d = ' ' then true else hasRun2 (d :: rest)

/-- The string contains three consecutive space characters. -/
def hasRun3 : List Char → Bool
  | [] => false
  | [_] => false
  | [_, _] => false
  | c :: d :: e :: rest =>
    if c = ' ' ∧ d = ' ' ∧ e = ' ' then true else hasRun3 (d :: e :: rest)

/-- Python `"-->" in s` (substring containment of the cue-timing separator). -/
def containsArrow : List Char → Bool
  | '-' :: '-' :: '>' :: _ => true
  | _ :: rest => containsArrow rest
  | [] => false

/-- Python `re.match(r"^\d+$", s)`: the whole string is one or more digits. -/
def isCueIndex (l : List Char) : Bool := !l.isEmpty && l.all Char.isDigit

/-- Worker for `re.sub(r"<[^>]+>", " ", s)`.  `pending` holds (reversed) the
characters tentatively inside a tag, starting with `'<'`; a closing `'>'`
after at least one non-`'>'` character turns the whole tag into one space,
while an unclosed `'<'` run is emitted literally at the end of the string
(the regex finds no match there). -/
def subTagsAux : List Char → List Char → List Char
  | [], pending => pending.reverse
  | c :: rest, pending =>
    match pending with
    | [] => if c = '<' then subTagsAux rest ['<'] else c :: subTagsAux rest []
    | [_] =>
      if c = '>' then '<' :: '>' :: subTagsAux rest []
      else subTagsAux rest (c :: pending)
    | _ =>
      if c = '>' then ' ' :: subTagsAux rest []
      else subTagsAux rest (c :: pending)

/-- Python `re.sub(r"<[^>]+>", " ", s)`: replace each inline tag with a space. -/
def subTags (l : List Char) : List Char := subTagsAux l []

/-- The per-line filter of `_clean_vtt_text`: a (stripped) line is dropped if
it is empty, is the WEBVTT header (case-insensitive), contains the cue-timing
separator, is purely numeric, or starts with a `kind:`/`language:` metadata
prefix (case-insensitive). -/
def droppable (l : List Char) : Bool :=
  l.isEmpty || decide (pyUpper l = "WEBVTT".data) || containsArrow l || isCueIndex l ||
  List.isPrefixOf "kind:".data (pyLower l) || List.isPrefixOf "language:".data (pyLower l)

/-- The line loop of `_clean_vtt_text`: strip each line, drop filtered lines,
strip inline tags from the survivors. -/
def processLines : List (List Char) → List (List Char)
  | [] => []
  | line :: rest =>
    let stripped := pyStrip line
    if droppable stripped then processLines rest
    else subTags stripped :: processLines rest

/-- Function `_clean_vtt_text` from src/main.py. -/
def clean_vtt_text (s : List Char) : List Char :=
  pyStrip (replaceDD (joinSpace (processLines (splitlines s))))

/-! ### JSON values and the JSON-LD recipe search -/

/-- Parsed JSON values.  Objects are association lists (keys produced by
`json.loads` are unique, later duplicates having overwritten earlier ones). -/
inductive Json where
  | null : Json
  | bool : Bool → Json
  | num : Int → Json
  | str : List Char → Json
  | arr : List Json → Json
  | obj : List (List Char × Json) → Json

/-- Association-list lookup, i.e. Python `dict.get(key)`. -/
def alookup {β : Type} : List (List Char × β) → List Char → Option β
  | [], _ => none
  | (k, v) :: rest, key => if k = key then some v else alookup rest key

/-- Python truthiness of a JSON value. -/
def jsonTruthy : Json → Bool
  | .null => false
  | .bool b => b
  | .num n => decide (n ≠ 0)
  | .str s => !s.isEmpty
  | .arr l => !l.isEmpty
  | .obj f => !f.isEmpty

def typeKey : List Char := "@type".data
def graphKey : List Char := "@graph".data
def recipeTag : List Char := "Recipe".data

/-- Python `data.get("@type", "")` normalised to a list: a non-list value is wrapped
into a one-element list. -/
def normTypes (fields : List (List Char × Json)) : List Json :=
  match (alookup fields typeKey).getD (.str []) with
  | .arr l => l
  | t => [t]

/-- Python `"Recipe" in types`: an element equals the string `"Recipe"`. -/
def isRecipeStr : Json → Bool
  | .str s => decide (s = recipeTag)
  | _ => false

mutual

/-- Function `_find_recipe_in_jsonld` from src/main.py. -/
def find_recipe_in_jsonld : Json → Option Json
  | .obj fields =>
    if (normTypes fields).any isRecipeStr then some (.obj fields)
    else find_recipe_in_graph fields
  | .arr items => find_recipe_in_jsonld_list items
  | _ => none

/-- The `@graph` step of `_find_recipe_in_jsonld`: `if "@graph" in data`
followed by recursion into `data["@graph"]` (dict lookup: first binding of the
key); a falsy recursive result or a missing key yields `none`. -/
def find_recipe_in_graph : List (List Char × Json) → Option Json
  | [] => none
  | (k, v) :: rest =>
    if k = graphKey then
      match find_recipe_in_jsonld v with
      | some r => if jsonTruthy r then some r else none
      | none => none
    else find_recipe_in_graph rest

/-- The `for item in data` loop of `_find_recipe_in_jsonld`: the first truthy
recursive result wins. -/
def find_recipe_in_jsonld_list : List Json → Option Json
  | [] => none
  | x :: rest =>
    match find_recipe_in_jsonld x with
    | some r => if jsonTruthy r then some r else find_recipe_in_jsonld_list rest
    | none => find_recipe_in_jsonld_list rest

end

/-! ### The transcript fetcher

The two external transcript sources and the HTTP client are modelled as an
oracle.  Exceptions raised by the collaborators are modelled as `Except`
values carrying the exception's message (Python `str(exc)`). -/

/-- One `{ext, url}` caption-track descriptor from the metadata extractor. -/
structure TrackEntry where
  ext : Option (List Char)
  url : Option (List Char)
deriving DecidableEq

/-- A caption store: language code → sequence of track descriptors
(`subtitles` or `automatic_captions`). -/
abbrev CapStore := List (List Char × List TrackEntry)

/-- The metadata object returned by the yt-dlp extractor (the fields the
service reads; each is optional because `info.get` is used). -/
structure VideoInfo where
  description : Option (List Char)
  title : Option (List Char)
  subtitles : Option CapStore
  automatic_captions : Option CapStore
deriving DecidableEq

/-- One timed caption item from the primary transcript API. -/
structure TranscriptItem where
  text : Option (List Char)
deriving DecidableEq

/-- Outcomes of the three outbound calls the transcript endpoint can make:
`_fetch_video_info`, `YouTubeTranscriptApi.get_transcript`, and
`requests.get` on a caption-track URL (with `raise_for_status` folded in). -/
structure TranscriptOracle where
  fetchInfo : Except (List Char) VideoInfo
  getTranscript : Except (List Char) (List TranscriptItem)
  download : List Char → Except (List Char) (List Char)

/-- The JSON body of a TranscriptResult. -/
structure TranscriptResult where
  success : Bool
  videoId : List Char
  transcript : Option (List Char)
  description : Option (List Char)
  title : Option (List Char)
  error : Option (List Char)
deriving DecidableEq

/-- Python truthiness of an optional string (`None` and `""` are falsy). -/
def pyTruthyStr : Option (List Char) → Bool
  | some s => !s.isEmpty
  | none => false

def vttExt : List Char := "vtt".data
def noCaptionsMsg : List Char := "No captions found for requested language".data
def emptyTranscriptMsg : List Char := "Empty transcript from primary API".data

/-- Helper `pick_caption_url` from `_fetch_via_ytdlp`: in the store's entry list for
the language, the first `vtt` track with a (truthy) URL wins, else the first
track with a (truthy) URL. -/
def pick_caption_url (lang : List Char) (store : CapStore) : Option (List Char) :=
  let entries := (alookup store lang).getD []
  match entries.find? (fun e => decide (e.ext = some vttExt) && pyTruthyStr e.url) with
  | some e => e.url
  | none =>
    match entries.find? (fun e => pyTruthyStr e.url) with
    | some e => e.url
    | none => none

/-- Python `a or b` on optional strings (`None` and `""` are falsy). -/
def pyOrStr (a b : Option (List Char)) : Option (List Char) :=
  match a with
  | some s => if s.isEmpty then b else some s
  | none => b

/-- Python `pick_caption_url(captions) or pick_caption_url(auto_captions)`:
manual subtitles first, then automatic captions. -/
def chooseCaptionUrl (lang : List Char) (info : VideoInfo) : Option (List Char) :=
  pyOrStr (pick_caption_url lang (info.subtitles.getD []))
    (pick_caption_url lang (info.automatic_captions.getD []))

/-- Function `_fetch_via_ytdlp` from src/main.py.  The second component records
whether the caption-track download (`requests.get`) was performed. -/
def fetch_via_ytdlp (o : TranscriptOracle) (lang : List Char)
    (info? : Option VideoInfo) : Except (List Char) (List Char × VideoInfo) × Bool :=
  match (match info? with | some i => Except.ok i | none => o.fetchInfo) with
  | .error e => (.error e, false)
  | .ok info =>
    match chooseCaptionUrl lang info with
    | none => (.error noCaptionsMsg, false)
    | some u =>
      if u.isEmpty then (.error noCaptionsMsg, false)
      else
        match o.download u with
        | .error e => (.error e, true)
        | .ok txt => (.ok (clean_vtt_text txt, info), true)

/-- Python `" ".join(item.get("text", "") for item in items).strip()`. -/
def joinedTranscriptText (items : List TranscriptItem) : List Char :=
  pyStrip (joinSpace (items.map (fun it => it.text.getD [])))

/-- The primary-API step of the endpoint: the transcript items' joined text,
or the exception message (an empty joined text raises). -/
def primaryResult (o : TranscriptOracle) : Except (List Char) (List Char) :=
  match o.getTranscript with
  | .error e => .error e
  | .ok items =>
    let text := joinedTranscriptText items
    if text.isEmpty then .error emptyTranscriptMsg else .ok text

/-- The metadata captured in step 1 of the endpoint (`None` when
`_fetch_video_info` raised). -/
def step1Info (o : TranscriptOracle) : Option VideoInfo :=
  match o.fetchInfo with
  | .ok i => some i
  | .error _ => none

/-- Python falsiness of an optional string. -/
def pyFalsyStr (a : Option (List Char)) : Bool :=
  match a with
  | some s => s.isEmpty
  | none => true

def fallbackSep : List Char := " | fallback: ".data

/-- The `/api/transcript` handler from src/main.py.  The second component
records whether a caption-track download occurred (the fallback's network
call). -/
def transcript (o : TranscriptOracle) (videoId lang : List Char) :
    TranscriptResult × Bool :=
  let video_info := step1Info o
  let description := video_info.bind VideoInfo.description
  let title := video_info.bind VideoInfo.title
  match primaryResult o with
  | .ok text =>
    ({ success := true, videoId := videoId, transcript := some text,
       description := description, title := title, error := none }, false)
  | .error exc =>
    match fetch_via_ytdlp o lang video_info with
    | (.ok (text, info), fetched) =>
      ({ success := true, videoId := videoId, transcript := some text,
         description := if pyFalsyStr description then info.description else description,
         title := if pyFalsyStr description then info.title else title,
         error := none }, fetched)
    | (.error fexc, fetched) =>
      ({ success := false, videoId := videoId, transcript := none,
         description := description, title := title,
         error := some (exc ++ fallbackSep ++ fexc) }, fetched)

/-! ### The recipe scraper

The page fetch and the HTML parsing are modelled by a `Page` value carrying
exactly the data the handler reads from the parsed soup; JSON-LD script
blocks appear as already-parsed `Option Json` values (`none` when
`json.loads` raised or the block had no string content).  Responses are the
literal JSON dictionaries the handler returns, as association lists. -/

/-- What `scrape_recipe` reads from the fetched page. -/
structure Page where
  /-- `soup.title.string` when the `title` tag exists and has a string. -/
  titleStr : Option (List Char)
  /-- For a `meta property="og:image"` tag: its `content` attribute. -/
  ogContent : Option (Option (List Char))
  /-- The JSON-LD script blocks in document order, parsed. -/
  ldBlocks : List (Option Json)
  /-- `soup.get_text` after decomposing script/style/nav/footer/header. -/
  bodyText : List Char

/-- Outcome of `requests.get(url, ...)` for the scraper. -/
inductive FetchOutcome where
  | timeout : FetchOutcome
  | reqErr : List Char → FetchOutcome
  | ok : Page → FetchOutcome

def successKey : List Char := "success".data
def errorKey : List Char := "error".data
def recipeDataKey : List Char := "recipe_data".data
def pageTextKey : List Char := "page_text".data
def titleKey : List Char := "title".data
def imageUrlKey : List Char := "image_url".data
def nameKey : List Char := "name".data
def imageKey : List Char := "image".data
def urlKey : List Char := "url".data
def instructionsKey : List Char := "recipeInstructions".data
def timeoutMsg : List Char := "Request timed out".data

/-- Python `recipe_data.get(key)` (the found recipe node is always a dict). -/
def jget : Json → List Char → Option Json
  | .obj fields, k => alookup fields k
  | _, _ => none

/-- Python `soup.title.string.strip() if soup.title and soup.title.string else None`
(an empty string is falsy). -/
def pageTitle (p : Page) : Option (List Char) :=
  match p.titleStr with
  | some s => if s.isEmpty then none else some (pyStrip s)
  | none => none

/-- Value of `og_image` after the `og:image` extraction: the tag's `content` when the
tag exists and the attribute is truthy. -/
def ogImage0 (p : Page) : Option Json :=
  match p.ogContent with
  | some (some c) => if c.isEmpty then none else some (.str c)
  | _ => none

/-- The JSON-LD script loop: parse failures are skipped, and the first truthy
`_find_recipe_in_jsonld` result breaks the loop. -/
def findFirstRecipe : List (Option Json) → Option Json
  | [] => none
  | none :: rest => findFirstRecipe rest
  | some d :: rest =>
    match find_recipe_in_jsonld d with
    | some r => if jsonTruthy r then some r else findFirstRecipe rest
    | none => findFirstRecipe rest

/-- The Python type name of a JSON value, for the `AttributeError` message
raised by `img[0].get` on a non-dict. -/
def pyTypeName : Json → List Char
  | .null => "NoneType".data
  | .bool _ => "bool".data
  | .num _ => "int".data
  | .str _ => "str".data
  | .arr _ => "list".data
  | .obj _ => "dict".data

/-- The `AttributeError` message text (quotes around the names omitted). -/
def attrErrMsg (j : Json) : List Char :=
  pyTypeName j ++ " object has no attribute get".data

/-- Python truthiness of `og_image` (an optional JSON value). -/
def optJsonTruthy : Option Json → Bool
  | some v => jsonTruthy v
  | none => false

/-- The image-derivation step of `scrape_recipe`: when no `og:image` was
found and the recipe node has a truthy `image` field, derive `og_image` from
that field (string / first element of a list / dict with `url`).  A list
whose first element is neither a string nor a dict raises `AttributeError`,
caught by the handler's catch-all. -/
def deriveOgImage (og : Option Json) (r : Json) : Except (List Char) (Option Json) :=
  if !optJsonTruthy og && optJsonTruthy (jget r imageKey) then
    match jget r imageKey with
    | some (.str s) => .ok (some (.str s))
    | some (.arr []) => .ok og
    | some (.arr (.str s :: _)) => .ok (some (.str s))
    | some (.arr (.obj f :: _)) => .ok (some ((alookup f urlKey).getD (.str [])))
    | some (.arr (x :: _)) => .error (attrErrMsg x)
    | some (.obj f) => .ok (some ((alookup f urlKey).getD (.str [])))
    | _ => .ok og
  else .ok og

/-- Python `recipe_data.get("recipeInstructions")` truthiness. -/
def hasInstructions (r : Json) : Bool := optJsonTruthy (jget r instructionsKey)

/-- Python `if len(body_text) > 8000: body_text = body_text[:8000]`. -/
def truncateBody (l : List Char) : List Char :=
  if l.length > 8000 then l.take 8000 else l

/-- An optional page title as a JSON value. -/
def optStrJson : Option (List Char) → Json
  | some s => .str s
  | none => .null

/-- Python `recipe_data.get("name") or page_title`. -/
def pyOrTitle (nm : Option Json) (pt : Option (List Char)) : Json :=
  match nm with
  | some v => if jsonTruthy v then v else optStrJson pt
  | none => optStrJson pt

/-- An optional `og_image` as the `image_url` JSON value. -/
def optJson : Option Json → Json
  | some j => j
  | none => .null

/-- The try-block body of `scrape_recipe` on a fetched page. -/
def scrapeOk (p : Page) : List (List Char × Json) :=
  let page_title := pageTitle p
  let og0 := ogImage0 p
  let body := truncateBody p.bodyText
  match findFirstRecipe p.ldBlocks with
  | some r =>
    match deriveOgImage og0 r with
    | .error m =>
      [(successKey, .bool false), (errorKey, .str ("Scraping failed: ".data ++ m))]
    | .ok og1 =>
      [(successKey, .bool true),
       (recipeDataKey, r),
       (pageTextKey, if hasInstructions r then .null else .str body),
       (titleKey, pyOrTitle (jget r nameKey) page_title),
       (imageUrlKey, optJson og1)]
  | none =>
    [(successKey, .bool true),
     (recipeDataKey, .null),
     (pageTextKey, .str body),
     (titleKey, optStrJson page_title),
     (imageUrlKey, optJson og0)]

/-- The `/api/scrape-recipe` handler from src/main.py. -/
def scrape_recipe : FetchOutcome → List (List Char × Json)
  | .timeout => [(successKey, .bool false), (errorKey, .str timeoutMsg)]
  | .reqErr m =>
    [(successKey, .bool false), (errorKey, .str ("Failed to fetch page: ".data ++ m))]
  | .ok p => scrapeOk p

/-! ### Specification-side definitions

These follow the spec's words rather than the code, for the refinement
claims that compare the two. -/

/-- Spec wording of the per-store track choice: "within each store, a track
with the subtitle (vtt) format and a URL is preferred, else the first track
with a URL for that language is taken". -/
def specPickTrack (lang : List Char) (store : CapStore) : Option (List Char) :=
  let entries := (alookup store lang).getD []
  ((entries.filter (fun e => decide (e.ext = some vttExt) && pyTruthyStr e.url)).head?.bind
      TrackEntry.url) <|>
  ((entries.filter (fun e => pyTruthyStr e.url)).head?.bind TrackEntry.url)

/-- Spec wording of the caption-URL choice: "searching the provider's manual
caption tracks for the requested language first, then its
automatically-generated caption tracks". -/
def specCaptionUrl (lang : List Char) (info : VideoInfo) : Option (List Char) :=
  specPickTrack lang (info.subtitles.getD []) <|>
  specPickTrack lang (info.automatic_captions.getD [])

/-- The spec's shape of the VTT cleaner's surviving lines: strip each line
and keep those the line filter does not drop. -/
def survivingLines (s : List Char) : List (List Char) :=
  ((splitlines s).map pyStrip).filter (fun l => !droppable l)

/-- The spec's pipeline shape of the VTT cleaner: strip inline markup from
the surviving lines, join with single spaces, make one pair-collapsing pass,
trim. -/
def cleanSpec (s : List Char) : List Char :=
  pyStrip (replaceDD (joinSpace ((survivingLines s).map subTags)))

mutual

/-- Spec wording of the JSON-LD search order: the nodes visited by the
depth-first pre-order walk that checks a mapping before recursing into its
`@graph` field and walks a sequence's elements in order. -/
def nodesPre : Json → List Json
  | .obj fields => .obj fields :: nodesGraph fields
  | .arr items => nodesPreList items
  | _ => []

/-- The `@graph` step of the walk (dict lookup of the first binding). -/
def nodesGraph : List (List Char × Json) → List Json
  | [] => []
  | (k, v) :: rest => if k = graphKey then nodesPre v else nodesGraph rest

/-- Elements of a sequence, in order. -/
def nodesPreList : List Json → List Json
  | [] => []
  | x :: rest => nodesPre x ++ nodesPreList rest

end

/-- A node whose normalized type sequence contains `"Recipe"`. -/
def isRecipeNode : Json → Bool
  | .obj fields => (normTypes fields).any isRecipeStr
  | _ => false

/-! ### Concrete inputs for witnesses and counterexamples -/

/-- Metadata used by `w1oracle`. -/
def w1info : VideoInfo :=
  { description := some "d".data, title := some "t".data,
    subtitles := none, automatic_captions := none }

/-- Oracle whose primary transcript call succeeds with non-empty text. -/
def w1oracle : TranscriptOracle :=
  { fetchInfo := .ok w1info,
    getTranscript := .ok [{ text := some "hi".data }],
    download := fun _ => .error [] }

/-- Metadata whose caption stores hold no usable track for `"en"`. -/
def c2info : VideoInfo :=
  { description := none, title := none,
    subtitles := some [("en".data, [{ ext := some "srv".data, url := none }])],
    automatic_captions := none }

/-- Oracle for which every outbound call fails. -/
def failOracle : TranscriptOracle :=
  { fetchInfo := .error "boom".data,
    getTranscript := .error "denied".data,
    download := fun _ => .error "net".data }

/-- A page whose recipe node has a present but falsy `recipeInstructions`. -/
def c3page : Page :=
  { titleStr := none, ogContent := none,
    ldBlocks := [some (.obj [(typeKey, .str recipeTag), (instructionsKey, .arr [])])],
    bodyText := "Mix and bake".data }

/-- The recipe node of `c3page`. -/
def c3node : Json := .obj [(typeKey, .str recipeTag), (instructionsKey, .arr [])]

/-- A page with both an `og:image` and a recipe-embedded image. -/
def c8node : Json :=
  .obj [(typeKey, .str recipeTag), (nameKey, .str "Soup".data),
        (imageKey, .str "https://img/y.jpg".data),
        (instructionsKey, .arr [.str "Boil".data])]

def c8page : Page :=
  { titleStr := some "Soup page".data,
    ogContent := some (some "https://img/x.jpg".data),
    ldBlocks := [some c8node],
    bodyText := "Soup body".data }

/-- A recipe node with a truthy `recipeInstructions`. -/
def c3wnode : Json :=
  .obj [(typeKey, .str recipeTag), (instructionsKey, .arr [.str "Boil".data])]

def c3wpage : Page :=
  { titleStr := none, ogContent := none, ldBlocks := [some c3wnode],
    bodyText := "body".data }

/-! ## Helper lemmas -/

theorem alookup_err_success (a b : Json) :
    alookup [(successKey, a), (errorKey, b)] successKey = some a := rfl

theorem alookup_ok_success (a b c d e : Json) :
    alookup [(successKey, a), (recipeDataKey, b), (pageTextKey, c), (titleKey, d),
      (imageUrlKey, e)] successKey = some a := rfl

theorem alookup_ok_pageText (a b c d e : Json) :
    alookup [(successKey, a), (recipeDataKey, b), (pageTextKey, c), (titleKey, d),
      (imageUrlKey, e)] pageTextKey = some c := rfl

theorem alookup_ok_imageUrl (a b c d e : Json) :
    alookup [(successKey, a), (recipeDataKey, b), (pageTextKey, c), (titleKey, d),
      (imageUrlKey, e)] imageUrlKey = some e := rfl

/-! ## Claims -/

/-- C9: a recipe-scrape whose page fetch times out returns exactly
`{"success": false, "error": "Request timed out"}`, and any other
HTTP/network failure returns `success=false` with an error string beginning
`"Failed to fetch page: "` followed by the cause. -/
theorem scrape_fetch_failures :
    scrape_recipe .timeout =
      [(successKey, .bool false), (errorKey, .str "Request timed out".data)] ∧
    ∀ m : List Char, scrape_recipe (.reqErr m) =
      [(successKey, .bool false),
       (errorKey, .str ("Failed to fetch page: ".data ++ m))] :=
  ⟨rfl, fun _ => rfl⟩

/-- C10: every failure response of the recipe-scrape endpoint carries exactly
the two keys `success` and `error`, whichever failure path produced it. -/
theorem scrape_failure_keys (fo : FetchOutcome)
    (h : alookup (scrape_recipe fo) successKey = some (.bool false)) :
    (scrape_recipe fo).map Prod.fst = [successKey, errorKey] := by
  cases fo with
  | timeout => rfl
  | reqErr m => rfl
  | ok p =>
    rcases hf : findFirstRecipe p.ldBlocks with _ | r
    · simp only [scrape_recipe, scrapeOk, hf] at h
      rw [alookup_ok_success] at h
      simp at h
    · rcases hd : deriveOgImage (ogImage0 p) r with m | og1
      · simp only [scrape_recipe, scrapeOk, hf, hd]
        rfl
      · simp only [scrape_recipe, scrapeOk, hf, hd] at h
        rw [alookup_ok_success] at h
        simp at h

/-- Witness for C10: the timeout response satisfies the hypothesis and the
conclusion. -/
theorem scrape_failure_keys_witness :
    alookup (scrape_recipe .timeout) successKey = some (.bool false) ∧
    (scrape_recipe .timeout).map Prod.fst = [successKey, errorKey] :=
  ⟨rfl, scrape_failure_keys .timeout rfl⟩

/-- C7: a TranscriptResult with `success=false` carries `transcript = none`
and a present `error` string. -/
theorem transcript_failure_shape (o : TranscriptOracle) (vid lang : List Char)
    (h : (transcript o vid lang).1.success = false) :
    (transcript o vid lang).1.transcript = none ∧
    ((transcript o vid lang).1.error).isSome = true := by
  rcases hp : primaryResult o with exc | text
  · rcases hf : fetch_via_ytdlp o lang (step1Info o) with ⟨res, fetched⟩
    rcases res with fexc | ⟨text, info⟩
    · simp [transcript, hp, hf]
    · simp only [transcript, hp, hf] at h
      simp at h
  · simp only [transcript, hp] at h
    simp at h

/-- Witness for C7: the all-failing oracle gives `success=false`, no
transcript and a present error. -/
theorem transcript_failure_shape_witness :
    (transcript failOracle "v".data "en".data).1.success = false ∧
    ((transcript failOracle "v".data "en".data).1.transcript = none ∧
     ((transcript failOracle "v".data "en".data).1.error).isSome = true) :=
  ⟨rfl, transcript_failure_shape failOracle "v".data "en".data rfl⟩

/-- C1: when the primary transcript lookup yields items with non-empty
joined text, the endpoint returns success with that text and the step-1
metadata, and no caption-track fetch occurs. -/
theorem transcript_primary_short_circuit (o : TranscriptOracle)
    (vid lang : List Char) (items : List TranscriptItem)
    (hp : o.getTranscript = .ok items)
    (ht : joinedTranscriptText items ≠ []) :
    transcript o vid lang =
      ({ success := true, videoId := vid,
         transcript := some (joinedTranscriptText items),
         description := (step1Info o).bind VideoInfo.description,
         title := (step1Info o).bind VideoInfo.title,
         error := none }, false) := by
  have hpr : primaryResult o = .ok (joinedTranscriptText items) := by
    simp only [primaryResult, hp]
    rw [if_neg]
    simp only [List.isEmpty_iff]
    exact ht
  simp only [transcript, hpr]

/-- Witness for C1: a successful primary lookup on a concrete oracle. -/
theorem transcript_primary_short_circuit_witness :
    w1oracle.getTranscript = .ok [{ text := some "hi".data }] ∧
    joinedTranscriptText [{ text := some "hi".data }] ≠ [] ∧
    transcript w1oracle "v".data "en".data =
      ({ success := true, videoId := "v".data,
         transcript := some (joinedTranscriptText [{ text := some "hi".data }]),
         description := (step1Info w1oracle).bind VideoInfo.description,
         title := (step1Info w1oracle).bind VideoInfo.title,
         error := none }, false) :=
  ⟨rfl, by decide,
    transcript_primary_short_circuit w1oracle "v".data "en".data
      [{ text := some "hi".data }] rfl (by decide)⟩

/-- C8: when an `og:image` with truthy content was found and the recipe node
has an `image` field, the response's `image_url` is the `og:image` content. -/
theorem scrape_ogImage_wins (p : Page) (s : List Char) (r : Json)
    (hog : p.ogContent = some (some s)) (hs : s ≠ [])
    (hr : findFirstRecipe p.ldBlocks = some r)
    (_himg : jget r imageKey ≠ none) :
    alookup (scrape_recipe (.ok p)) imageUrlKey = some (.str s) := by
  have hse : s.isEmpty = false := by
    cases s with
    | nil => exact absurd rfl hs
    | cons a t => rfl
  have hog0 : ogImage0 p = some (.str s) := by
    simp [ogImage0, hog, hse]
  have hd : deriveOgImage (ogImage0 p) r = .ok (some (.str s)) := by
    rw [hog0]
    simp [deriveOgImage, optJsonTruthy, jsonTruthy, hse]
  simp only [scrape_recipe, scrapeOk, hr, hd]
  rw [alookup_ok_imageUrl]
  rfl

/-- Witness for C8: the §8 scenario, where both images are present and the
`og:image` wins. -/
theorem scrape_ogImage_wins_witness :
    c8page.ogContent = some (some "https://img/x.jpg".data) ∧
    "https://img/x.jpg".data ≠ ([] : List Char) ∧
    findFirstRecipe c8page.ldBlocks = some c8node ∧
    jget c8node imageKey ≠ none ∧
    alookup (scrape_recipe (.ok c8page)) imageUrlKey =
      some (.str "https://img/x.jpg".data) :=
  ⟨rfl, by decide, rfl,
    by simp [show jget c8node imageKey = some (.str "https://img/y.jpg".data) from rfl],
    scrape_ogImage_wins c8page "https://img/x.jpg".data c8node rfl (by decide) rfl
      (by simp [show jget c8node imageKey = some (.str "https://img/y.jpg".data) from rfl])⟩

/-- Counterexample to C3: on `c3page` the recipe node has a
`recipeInstructions` field (present, value `[]`), yet the response carries
the page text rather than `page_text = none`. -/
theorem scrape_instructions_presence_refuted :
    jget c3node instructionsKey = some (.arr []) ∧
    findFirstRecipe c3page.ldBlocks = some c3node ∧
    alookup (scrape_recipe (.ok c3page)) pageTextKey =
      some (.str "Mix and bake".data) ∧
    Json.str "Mix and bake".data ≠ Json.null :=
  ⟨rfl, rfl, rfl, fun h => Json.noConfusion h⟩

/-- C3 (amended): when a recipe node is found and the response reports
success, `page_text` is `none` exactly when the node's `recipeInstructions`
value is truthy (present and non-empty), and the truncated page text
otherwise. -/
theorem scrape_pageText_truthiness (p : Page) (r : Json)
    (hr : findFirstRecipe p.ldBlocks = some r)
    (hs : alookup (scrape_recipe (.ok p)) successKey = some (.bool true)) :
    alookup (scrape_recipe (.ok p)) pageTextKey =
      some (if hasInstructions r then Json.null else .str (truncateBody p.bodyText)) := by
  rcases hd : deriveOgImage (ogImage0 p) r with m | og1
  · simp only [scrape_recipe, scrapeOk, hr, hd] at hs
    rw [alookup_err_success] at hs
    simp at hs
  · simp only [scrape_recipe, scrapeOk, hr, hd]
    rw [alookup_ok_pageText]

/-- Witness for C3 (amended): a page whose recipe has truthy instructions. -/
theorem scrape_pageText_truthiness_witness :
    findFirstRecipe c3wpage.ldBlocks = some c3wnode ∧
    alookup (scrape_recipe (.ok c3wpage)) successKey = some (.bool true) ∧
    alookup (scrape_recipe (.ok c3wpage)) pageTextKey =
      some (if hasInstructions c3wnode then Json.null
            else .str (truncateBody c3wpage.bodyText)) :=
  ⟨rfl, rfl, scrape_pageText_truthiness c3wpage c3wnode rfl rfl⟩

theorem find?_eq_filter_head? {α : Type} (p : α → Bool) :
    ∀ l : List α, l.find? p = (l.filter p).head?
  | [] => rfl
  | x :: rest => by
    by_cases hx : p x
    · rw [List.find?_cons_of_pos _ hx, List.filter_cons_of_pos hx]
      rfl
    · rw [List.find?_cons_of_neg _ (by simpa using hx),
        List.filter_cons_of_neg (by simpa using hx)]
      exact find?_eq_filter_head? p rest

theorem pick_eq_spec (lang : List Char) (store : CapStore) :
    pick_caption_url lang store = specPickTrack lang store := by
  simp only [pick_caption_url, specPickTrack]
  rw [← find?_eq_filter_head?, ← find?_eq_filter_head?]
  split
  · rename_i e1 hf1
    rw [hf1]
    have h1 := List.find?_some hf1
    simp only [Bool.and_eq_true] at h1
    rcases hu : e1.url with _ | s
    · rw [hu] at h1
      simp [pyTruthyStr] at h1
    · simp [hu]
  · rename_i hf1
    rw [hf1]
    split
    · rename_i e2 hf2
      rw [hf2]
      have h2 := List.find?_some hf2
      rcases hu : e2.url with _ | s
      · rw [hu] at h2
        simp [pyTruthyStr] at h2
      · simp [hu]
    · rename_i hf2
      rw [hf2]
      rfl

theorem pick_url_nonempty (lang : List Char) (store : CapStore) (s : List Char)
    (h : pick_caption_url lang store = some s) : s.isEmpty = false := by
  simp only [pick_caption_url] at h
  split at h
  · rename_i e1 hf1
    have h1 := List.find?_some hf1
    rw [h] at h1
    simp only [Bool.and_eq_true] at h1
    simpa [pyTruthyStr] using h1.2
  · split at h
    · rename_i e2 hf2
      have h2 := List.find?_some hf2
      rw [h] at h2
      simpa [pyTruthyStr] using h2
    · exact absurd h (by simp)

theorem pyOrStr_eq_orElse (a b : Option (List Char))
    (ha : ∀ s, a = some s → s.isEmpty = false) : pyOrStr a b = (a <|> b) := by
  cases a with
  | none => rfl
  | some s =>
    simp only [pyOrStr, ha s rfl]
    rfl

/-- C2: the fallback's caption URL is chosen as the spec describes — manual
tracks for the language first, then automatic ones, preferring a vtt track
with a URL, else the first track with a URL — and when neither store yields a
track, `_fetch_via_ytdlp` fails with the no-captions error (and performs no
download). -/
theorem caption_track_selection :
    (∀ lang info, chooseCaptionUrl lang info = specCaptionUrl lang info) ∧
    ∀ (o : TranscriptOracle) lang info, chooseCaptionUrl lang info = none →
      fetch_via_ytdlp o lang (some info) = (.error noCaptionsMsg, false) := by
  constructor
  · intro lang info
    unfold chooseCaptionUrl specCaptionUrl
    rw [← pick_eq_spec, ← pick_eq_spec]
    exact pyOrStr_eq_orElse _ _ (pick_url_nonempty lang (info.subtitles.getD []))
  · intro o lang info h
    simp only [fetch_via_ytdlp, h]

/-- Witness for C2: stores with no usable `"en"` track. -/
theorem caption_track_selection_witness :
    chooseCaptionUrl "en".data c2info = none ∧
    fetch_via_ytdlp failOracle "en".data (some c2info) =
      (.error noCaptionsMsg, false) :=
  ⟨rfl, caption_track_selection.2 failOracle "en".data c2info rfl⟩

theorem processLines_eq :
    ∀ ls : List (List Char),
      processLines ls = ((ls.map pyStrip).filter (fun l => !droppable l)).map subTags
  | [] => rfl
  | line :: rest => by
    simp only [processLines, List.map_cons, List.filter_cons]
    by_cases h : droppable (pyStrip line)
    · simp [h, processLines_eq rest]
    · simp [h, processLines_eq rest]

theorem replaceDD_cons (c : Char) (l : List Char) :
    ∃ t, replaceDD (c :: l) = c :: t := by
  cases l with
  | nil => exact ⟨[], rfl⟩
  | cons d rest =>
    simp only [replaceDD]
    by_cases h : c = ' ' ∧ d = ' '
    · rw [if_pos h, h.1]
      exact ⟨replaceDD rest, rfl⟩
    · rw [if_neg h]
      exact ⟨replaceDD (d :: rest), rfl⟩

theorem hasRun3_tail (c : Char) : ∀ l, hasRun3 (c :: l) = false → hasRun3 l = false := by
  intro l h
  match l with
  | [] => rfl
  | [d] => rfl
  | d :: e :: rest =>
    simp only [hasRun3] at h
    split at h
    · exact absurd h (by simp)
    · exact h

theorem hasRun2_tail (c : Char) : ∀ l, hasRun2 (c :: l) = false → hasRun2 l = false := by
  intro l h
  match l with
  | [] => rfl
  | d :: rest =>
    simp only [hasRun2] at h
    split at h
    · exact absurd h (by simp)
    · exact h

theorem replaceDD_id : ∀ l, hasRun2 l = false → replaceDD l = l
  | [] => fun _ => rfl
  | [c] => fun _ => rfl
  | c :: d :: rest => fun h => by
    simp only [hasRun2] at h
    split at h
    · exact absurd h (by simp)
    · rename_i hcd
      simp only [replaceDD]
      rw [if_neg hcd]
      exact congrArg (c :: ·) (replaceDD_id (d :: rest) h)

theorem replaceDD_noRun2 : ∀ l, hasRun3 l = false → hasRun2 (replaceDD l) = false
  | [] => fun _ => rfl
  | [c] => fun _ => rfl
  | c :: d :: rest => fun h => by
    simp only [replaceDD]
    by_cases hcd : c = ' ' ∧ d = ' '
    · rw [if_pos hcd]
      cases rest with
      | nil => rfl
      | cons e rest2 =>
        obtain ⟨hc, hd⟩ := hcd
        subst hc
        subst hd
        simp only [hasRun3] at h
        split at h
        · exact absurd h (by simp)
        · rename_i hcond
          have he : e ≠ ' ' := fun hh => hcond ⟨trivial, trivial, hh⟩
          have h3 : hasRun3 (e :: rest2) = false := hasRun3_tail ' ' (e :: rest2) h
          have ih := replaceDD_noRun2 (e :: rest2) h3
          obtain ⟨t, ht⟩ := replaceDD_cons e rest2
          rw [ht] at ih ⊢
          simp only [hasRun2]
          rw [if_neg (fun hh => he hh.2)]
          exact ih
    · rw [if_neg hcd]
      have h3 : hasRun3 (d :: rest) = false := hasRun3_tail c (d :: rest) h
      have ih := replaceDD_noRun2 (d :: rest) h3
      obtain ⟨t, ht⟩ := replaceDD_cons d rest
      rw [ht] at ih ⊢
      simp only [hasRun2]
      rw [if_neg hcd]
      exact ih

theorem hasRun2_iff_pair : ∀ l, hasRun2 l = true ↔ [' ', ' '] <:+: l
  | [] => by
    simp only [hasRun2]
    constructor
    · intro h
      cases h
    · intro h
      have := h.length_le
      simp at this
  | [c] => by
    simp only [hasRun2]
    constructor
    · intro h
      cases h
    · intro h
      have := h.length_le
      simp at this
  | c :: d :: rest => by
    simp only [hasRun2]
    split
    · rename_i hcd
      obtain ⟨hc, hd⟩ := hcd
      subst hc
      subst hd
      constructor
      · intro _
        exact ⟨[], rest, rfl⟩
      · intro _
        rfl
    · rename_i hcd
      rw [List.infix_cons_iff, hasRun2_iff_pair (d :: rest)]
      constructor
      · exact Or.inr
      · rintro (hp | hi)
        · rw [List.cons_prefix_cons] at hp
          obtain ⟨h1, hp2⟩ := hp
          rw [List.cons_prefix_cons] at hp2
          exact absurd ⟨h1.symm, hp2.1.symm⟩ hcd
        · exact hi

theorem hasRun2_false_of_infix {l₁ l₂ : List Char} (h : l₁ <:+: l₂)
    (h2 : hasRun2 l₂ = false) : hasRun2 l₁ = false := by
  by_contra hne
  have h1 : hasRun2 l₁ = true := by
    simpa using hne
  rw [hasRun2_iff_pair] at h1
  have h3 := h1.trans h
  rw [← hasRun2_iff_pair] at h3
  rw [h3] at h2
  cases h2

theorem rstrip_prefix_of (w : List Char) : rstrip w <+: w := by
  obtain ⟨t, ht⟩ := List.dropWhile_suffix (l := w.reverse) (p := isPySpace)
  refine ⟨t.reverse, ?_⟩
  rw [rstrip, ← List.reverse_append, ht, List.reverse_reverse]

theorem pyStrip_within (l : List Char) : pyStrip l <:+: l :=
  ((rstrip_prefix_of (lstrip l)).isInfix).trans (List.dropWhile_suffix isPySpace).isInfix

/-- Counterexample to C5: cleaning `"a   b"` yields `"a  b"`, which contains
two consecutive spaces (the single replacement pass only halves the run). -/
theorem clean_vtt_double_space_counterexample :
    clean_vtt_text "a   b".data = "a  b".data ∧
    [' ', ' '] <:+: clean_vtt_text "a   b".data :=
  ⟨by decide, by decide⟩

/-- C5 (amended): the cleaner strips `<...>` markup from surviving lines,
joins them with single spaces and makes one left-to-right pass replacing each
pair of consecutive spaces by one space; when the joined text has no run of
three or more spaces the output has no two consecutive spaces (longer runs
are only halved and can leave consecutive spaces in the output). -/
theorem clean_vtt_spec_pipeline (s : List Char) :
    clean_vtt_text s = cleanSpec s ∧
    (hasRun3 (joinSpace (processLines (splitlines s))) = false →
      hasRun2 (clean_vtt_text s) = false) := by
  constructor
  · simp only [clean_vtt_text, cleanSpec, survivingLines, processLines_eq]
  · intro h
    exact hasRun2_false_of_infix (pyStrip_within _) (replaceDD_noRun2 _ h)

/-- Witness for C5 (amended): a double space collapses, leaving no
consecutive spaces. -/
theorem clean_vtt_spec_pipeline_witness :
    hasRun3 (joinSpace (processLines (splitlines "hello  world".data))) = false ∧
    hasRun2 (clean_vtt_text "hello  world".data) = false :=
  ⟨by decide, (clean_vtt_spec_pipeline "hello  world".data).2 (by decide)⟩

theorem dropWhile_head_not {p : Char → Bool} :
    ∀ (l : List Char) (c : Char), (l.dropWhile p).head? = some c → p c = false
  | [], c => by
    intro h
    simp at h
  | x :: rest, c => by
    intro h
    rw [List.dropWhile_cons] at h
    by_cases hx : p x
    · rw [if_pos hx] at h
      exact dropWhile_head_not rest c h
    · rw [if_neg hx] at h
      cases h
      simpa using hx

theorem dropWhile_of_head_not {p : Char → Bool} (l : List Char)
    (h : ∀ c, l.head? = some c → p c = false) : l.dropWhile p = l := by
  cases l with
  | nil => rfl
  | cons x rest =>
    rw [List.dropWhile_cons, if_neg]
    rw [h x rfl]
    simp

theorem dropWhile_idem {p : Char → Bool} (l : List Char) :
    (l.dropWhile p).dropWhile p = l.dropWhile p :=
  dropWhile_of_head_not _ (dropWhile_head_not l)

theorem prefix_head_not {p : Char → Bool} {l₁ l₂ : List Char} (hp : l₁ <+: l₂)
    (h : ∀ c, l₂.head? = some c → p c = false) :
    ∀ c, l₁.head? = some c → p c = false := by
  obtain ⟨t, rfl⟩ := hp
  cases l₁ with
  | nil => intro c hc; simp at hc
  | cons a l =>
    intro c hc
    simp only [List.head?_cons, Option.some.injEq] at hc
    rw [← hc]
    exact h a rfl

theorem pyStrip_idem (l : List Char) : pyStrip (pyStrip l) = pyStrip l := by
  have hw : ∀ c, (lstrip l).head? = some c → isPySpace c = false :=
    dropWhile_head_not l
  have hs : ∀ c, (pyStrip l).head? = some c → isPySpace c = false :=
    prefix_head_not (rstrip_prefix_of (lstrip l)) hw
  have h1 : lstrip (pyStrip l) = pyStrip l := dropWhile_of_head_not _ hs
  show rstrip (lstrip (pyStrip l)) = pyStrip l
  rw [h1]
  show ((((lstrip l).reverse.dropWhile isPySpace).reverse).reverse.dropWhile
    isPySpace).reverse = pyStrip l
  rw [List.reverse_reverse, dropWhile_idem]
  rfl

theorem splitGo_noLB :
    ∀ (l acc : List Char), (∀ c ∈ acc, isLinebreak c = false) →
      ∀ piece ∈ splitGo l acc, ∀ c ∈ piece, isLinebreak c = false
  | [], acc, hacc => by
    intro piece hp c hc
    simp only [splitGo, List.mem_singleton] at hp
    subst hp
    exact hacc c (List.mem_reverse.mp hc)
  | [x], acc, hacc => by
    intro piece hp c hc
    simp only [splitGo] at hp
    by_cases hx : isLinebreak x
    · rw [if_pos hx] at hp
      simp only [List.mem_singleton] at hp
      subst hp
      exact hacc c (List.mem_reverse.mp hc)
    · rw [if_neg hx] at hp
      simp only [List.mem_singleton] at hp
      subst hp
      rw [List.mem_reverse] at hc
      rcases List.mem_cons.mp hc with h1 | h2
      · subst h1
        simpa using hx
      · exact hacc c h2
  | x :: y :: rest, acc, hacc => by
    intro piece hp c hc
    simp only [splitGo] at hp
    by_cases h1 : x = '\r' ∧ y = '\n'
    · rw [if_pos h1] at hp
      rcases List.mem_cons.mp hp with hh | hh
      · subst hh
        exact hacc c (List.mem_reverse.mp hc)
      · by_cases hre : rest.isEmpty
        · rw [if_pos hre] at hh
          cases hh
        · rw [if_neg hre] at hh
          exact splitGo_noLB rest [] (by intro c2 hc2; cases hc2) piece hh c hc
    · rw [if_neg h1] at hp
      by_cases h2 : isLinebreak x
      · rw [if_pos h2] at hp
        rcases List.mem_cons.mp hp with hh | hh
        · subst hh
          exact hacc c (List.mem_reverse.mp hc)
        · exact splitGo_noLB (y :: rest) [] (by intro c2 hc2; cases hc2) piece hh c hc
      · rw [if_neg h2] at hp
        refine splitGo_noLB (y :: rest) (x :: acc) ?_ piece hp c hc
        intro c2 hc2
        rcases List.mem_cons.mp hc2 with he | he
        · subst he
          simpa using h2
        · exact hacc c2 he

theorem splitlines_noLB (s : List Char) :
    ∀ piece ∈ splitlines s, ∀ c ∈ piece, isLinebreak c = false := by
  intro piece hp c hc
  unfold splitlines at hp
  by_cases hs : s.isEmpty
  · rw [if_pos hs] at hp
    cases hp
  · rw [if_neg hs] at hp
    exact splitGo_noLB s [] (by intro c2 h2; cases h2) piece hp c hc

theorem subTagsAux_noLB :
    ∀ (l pending : List Char), (∀ c ∈ l, isLinebreak c = false) →
      (∀ c ∈ pending, isLinebreak c = false) →
      ∀ c ∈ subTagsAux l pending, isLinebreak c = false
  | [], pending, _, hp => by
    intro c hc
    simp only [subTagsAux] at hc
    exact hp c (List.mem_reverse.mp hc)
  | x :: rest, pending, hl, hp => by
    intro c hc
    have hx := hl x (List.mem_cons_self x rest)
    have hrest : ∀ c2 ∈ rest, isLinebreak c2 = false :=
      fun c2 h2 => hl c2 (List.mem_cons_of_mem _ h2)
    cases pending with
    | nil =>
      simp only [subTagsAux] at hc
      by_cases hlt : x = '<'
      · rw [if_pos hlt] at hc
        refine subTagsAux_noLB rest ['<'] hrest ?_ c hc
        intro c2 h2
        rw [List.mem_singleton.mp h2]
        decide
      · rw [if_neg hlt] at hc
        rcases List.mem_cons.mp hc with rfl | h2
        · exact hx
        · exact subTagsAux_noLB rest [] hrest (by intro c2 h2; cases h2) c h2
    | cons p0 ptail =>
      cases ptail with
      | nil =>
        simp only [subTagsAux] at hc
        by_cases hgt : x = '>'
        · rw [if_pos hgt] at hc
          rcases List.mem_cons.mp hc with rfl | hc2
          · decide
          · rcases List.mem_cons.mp hc2 with rfl | hc3
            · decide
            · exact subTagsAux_noLB rest [] hrest (by intro c2 h2; cases h2) c hc3
        · rw [if_neg hgt] at hc
          refine subTagsAux_noLB rest (x :: [p0]) hrest ?_ c hc
          intro c2 h2
          rcases List.mem_cons.mp h2 with rfl | h3
          · exact hx
          · exact hp c2 h3
      | cons p1 ptail2 =>
        simp only [subTagsAux] at hc
        by_cases hgt : x = '>'
        · rw [if_pos hgt] at hc
          rcases List.mem_cons.mp hc with rfl | hc2
          · decide
          · exact subTagsAux_noLB rest [] hrest (by intro c2 h2; cases h2) c hc2
        · rw [if_neg hgt] at hc
          refine subTagsAux_noLB rest (x :: p0 :: p1 :: ptail2) hrest ?_ c hc
          intro c2 h2
          rcases List.mem_cons.mp h2 with rfl | h3
          · exact hx
          · exact hp c2 h3

theorem joinSpace_noLB :
    ∀ pieces : List (List Char),
      (∀ p ∈ pieces, ∀ c ∈ p, isLinebreak c = false) →
      ∀ c ∈ joinSpace pieces, isLinebreak c = false
  | [] => by
    intro _ c hc
    cases hc
  | [l] => by
    intro h c hc
    exact h l (List.mem_cons_self _ _) c hc
  | l :: l2 :: rest => by
    intro h c hc
    simp only [joinSpace] at hc
    rcases List.mem_append.mp hc with h1 | h2
    · exact h l (List.mem_cons_self _ _) c h1
    · rcases List.mem_cons.mp h2 with rfl | h3
      · decide
      · exact joinSpace_noLB (l2 :: rest)
          (fun p hpp => h p (List.mem_cons_of_mem _ hpp)) c h3

theorem replaceDD_mem : ∀ (l : List Char) (c : Char), c ∈ replaceDD l → c ∈ l ∨ c = ' '
  | [], c => by
    intro h
    cases h
  | [x], c => by
    intro h
    exact Or.inl h
  | x :: y :: rest, c => by
    intro h
    simp only [replaceDD] at h
    by_cases hxy : x = ' ' ∧ y = ' '
    · rw [if_pos hxy] at h
      rcases List.mem_cons.mp h with rfl | h2
      · exact Or.inr rfl
      · rcases replaceDD_mem rest c h2 with h3 | h3
        · exact Or.inl (List.mem_cons_of_mem _ (List.mem_cons_of_mem _ h3))
        · exact Or.inr h3
    · rw [if_neg hxy] at h
      rcases List.mem_cons.mp h with rfl | h2
      · exact Or.inl (List.mem_cons_self _ _)
      · rcases replaceDD_mem (y :: rest) c h2 with h3 | h3
        · exact Or.inl (List.mem_cons_of_mem _ h3)
        · exact Or.inr h3

theorem processLines_noLB :
    ∀ ls : List (List Char),
      (∀ l ∈ ls, ∀ c ∈ l, isLinebreak c = false) →
      ∀ out ∈ processLines ls, ∀ c ∈ out, isLinebreak c = false
  | [] => by
    intro _ out hout
    cases hout
  | line :: rest => by
    intro h out hout c hc
    simp only [processLines] at hout
    by_cases hd : droppable (pyStrip line)
    · rw [if_pos hd] at hout
      exact processLines_noLB rest (fun l hl => h l (List.mem_cons_of_mem _ hl))
        out hout c hc
    · rw [if_neg hd] at hout
      rcases List.mem_cons.mp hout with rfl | h2
      · have hline : ∀ c2 ∈ line, isLinebreak c2 = false :=
          h line (List.mem_cons_self _ _)
        have hstr : ∀ c2 ∈ pyStrip line, isLinebreak c2 = false :=
          fun c2 h2 => hline c2 ((pyStrip_within line).sublist.subset h2)
        exact subTagsAux_noLB (pyStrip line) [] hstr (by intro c2 h2; cases h2) c hc
      · exact processLines_noLB rest (fun l hl => h l (List.mem_cons_of_mem _ hl))
          out h2 c hc

theorem clean_noLB (s : List Char) :
    ∀ c ∈ clean_vtt_text s, isLinebreak c = false := by
  intro c hc
  have h1 : c ∈ replaceDD (joinSpace (processLines (splitlines s))) :=
    (pyStrip_within _).sublist.subset hc
  rcases replaceDD_mem _ c h1 with h2 | rfl
  · exact joinSpace_noLB _ (processLines_noLB _ (splitlines_noLB s)) c h2
  · decide

theorem splitGo_all_keep :
    ∀ (l acc : List Char), (∀ c ∈ l, isLinebreak c = false) →
      splitGo l acc = [acc.reverse ++ l]
  | [], acc, _ => by simp [splitGo]
  | [x], acc, h => by
    have hx : isLinebreak x = false := h x (List.mem_cons_self _ _)
    simp only [splitGo]
    rw [if_neg (by simp [hx])]
    simp
  | x :: y :: rest, acc, h => by
    have hx : isLinebreak x = false := h x (List.mem_cons_self _ _)
    simp only [splitGo]
    have hxr : ¬(x = '\r' ∧ y = '\n') := by
      rintro ⟨h1, _⟩
      subst h1
      exact absurd hx (by decide)
    rw [if_neg hxr, if_neg (by simp [hx]),
      splitGo_all_keep (y :: rest) (x :: acc) (fun c h2 => h c (List.mem_cons_of_mem _ h2))]
    simp

theorem splitlines_single (l : List Char) (hne : l ≠ [])
    (h : ∀ c ∈ l, isLinebreak c = false) : splitlines l = [l] := by
  unfold splitlines
  rw [if_neg (by simpa [List.isEmpty_iff] using hne), splitGo_all_keep l [] h]
  simp

/-- Counterexample to C4: cleaning is not idempotent — on `"a   b"` one pass
yields `"a  b"` and a second pass yields `"a b"`. -/
theorem clean_vtt_idempotent_counterexample :
    clean_vtt_text (clean_vtt_text "a   b".data) ≠ clean_vtt_text "a   b".data := by
  decide

/-- C4 (amended): the cleaner is idempotent on inputs whose cleaned output is
itself a clean line — empty, or surviving the line filter with no `<...>`
markup occurrence and no two consecutive spaces.  (In general a second pass
can differ, e.g. on `"a   b"`.) -/
theorem clean_vtt_conditional_idempotent (s : List Char)
    (h : clean_vtt_text s = [] ∨
      (droppable (clean_vtt_text s) = false ∧
       subTags (clean_vtt_text s) = clean_vtt_text s ∧
       hasRun2 (clean_vtt_text s) = false)) :
    clean_vtt_text (clean_vtt_text s) = clean_vtt_text s := by
  rcases h with h | ⟨hd, htags, hrun⟩
  · rw [h]
    rfl
  · set y := clean_vtt_text s with hy
    have hne : y ≠ [] := by
      intro hh
      rw [hh] at hd
      exact absurd hd (by decide)
    have hnolb : ∀ c ∈ y, isLinebreak c = false := fun c hc => clean_noLB s c hc
    have hsplit : splitlines y = [y] := splitlines_single y hne hnolb
    have hstrip : pyStrip y = y := by
      rw [hy]
      exact pyStrip_idem _
    have step1 : clean_vtt_text y = pyStrip (replaceDD (joinSpace (processLines [y]))) := by
      rw [clean_vtt_text, hsplit]
    have step2 : processLines [y] = [subTags y] := by
      simp only [processLines, hstrip]
      rw [if_neg (by simp [hd])]
    rw [step1, step2, htags]
    show pyStrip (replaceDD y) = y
    rw [replaceDD_id y hrun]
    exact hstrip

/-- Witness for C4 (amended): a clean output that satisfies the conditions
and is a fixed point of the cleaner. -/
theorem clean_vtt_conditional_idempotent_witness :
    (droppable (clean_vtt_text "hello <b>world".data) = false ∧
     subTags (clean_vtt_text "hello <b>world".data) = clean_vtt_text "hello <b>world".data ∧
     hasRun2 (clean_vtt_text "hello <b>world".data) = false) ∧
    clean_vtt_text (clean_vtt_text "hello <b>world".data) =
      clean_vtt_text "hello <b>world".data :=
  ⟨by decide, clean_vtt_conditional_idempotent "hello <b>world".data (Or.inr (by decide))⟩

theorem isRecipeNode_truthy : ∀ j : Json, isRecipeNode j = true → jsonTruthy j = true
  | .obj (_ :: _), _ => rfl
  | .obj [], h => Bool.noConfusion h
  | .null, h => Bool.noConfusion h
  | .bool _, h => Bool.noConfusion h
  | .num _, h => Bool.noConfusion h
  | .str _, h => Bool.noConfusion h
  | .arr _, h => Bool.noConfusion h

theorem find?_append_or {α : Type} (p : α → Bool) :
    ∀ l₁ l₂ : List α, (l₁ ++ l₂).find? p =
      (match l₁.find? p with
       | some a => some a
       | none => l₂.find? p)
  | [], l₂ => rfl
  | x :: rest, l₂ => by
    by_cases hx : p x
    · rw [List.cons_append, List.find?_cons_of_pos _ hx, List.find?_cons_of_pos _ hx]
    · rw [List.cons_append, List.find?_cons_of_neg _ (by simpa using hx),
        List.find?_cons_of_neg _ (by simpa using hx)]
      exact find?_append_or p rest l₂

mutual

theorem find_recipe_eq_spec :
    ∀ j : Json, find_recipe_in_jsonld j = (nodesPre j).find? isRecipeNode
  | .null => rfl
  | .bool _ => rfl
  | .num _ => rfl
  | .str _ => rfl
  | .obj fields => by
    simp only [find_recipe_in_jsonld, nodesPre]
    by_cases ht : (normTypes fields).any isRecipeStr
    · rw [if_pos ht, List.find?_cons_of_pos _ (show isRecipeNode (.obj fields) = true from ht)]
    · rw [if_neg ht, List.find?_cons_of_neg _
        (show ¬isRecipeNode (Json.obj fields) = true from ht)]
      exact find_graph_eq_spec fields
  | .arr items => by
    simp only [find_recipe_in_jsonld, nodesPre]
    exact find_list_eq_spec items

theorem find_graph_eq_spec :
    ∀ fields : List (List Char × Json),
      find_recipe_in_graph fields = (nodesGraph fields).find? isRecipeNode
  | [] => rfl
  | (k, v) :: rest => by
    simp only [find_recipe_in_graph, nodesGraph]
    by_cases hk : k = graphKey
    · rw [if_pos hk, if_pos hk, find_recipe_eq_spec v]
      split
      · rename_i r hf
        rw [hf, if_pos (isRecipeNode_truthy r (List.find?_some hf))]
      · rename_i hf
        rw [hf]
    · rw [if_neg hk, if_neg hk]
      exact find_graph_eq_spec rest

theorem find_list_eq_spec :
    ∀ items : List Json,
      find_recipe_in_jsonld_list items = (nodesPreList items).find? isRecipeNode
  | [] => rfl
  | x :: rest => by
    simp only [find_recipe_in_jsonld_list, nodesPreList]
    rw [find?_append_or, find_recipe_eq_spec x]
    split
    · rename_i r hf
      rw [hf, if_pos (isRecipeNode_truthy r (List.find?_some hf))]
    · rename_i hf
      rw [hf]
      exact find_list_eq_spec rest

end

/-- C6: the JSON-LD finder returns the first node, in the depth-first
pre-order that checks a mapping before its `@graph` field and walks sequence
elements in order, whose normalized type sequence contains `"Recipe"`, and
`none` otherwise; in particular a list-valued `@type` containing `"Recipe"`
matches, a Recipe inside `@graph` is found, and a sequence of non-matching
nodes yields `none`. -/
theorem find_recipe_dfs_conformance :
    (∀ j : Json, find_recipe_in_jsonld j = (nodesPre j).find? isRecipeNode) ∧
    find_recipe_in_jsonld (.obj [(typeKey, .arr [.str recipeTag, .str "Thing".data])]) =
      some (.obj [(typeKey, .arr [.str recipeTag, .str "Thing".data])]) ∧
    find_recipe_in_jsonld (.obj [(graphKey, .arr
        [.obj [(typeKey, .str "Thing".data)],
         .obj [(typeKey, .str recipeTag), (nameKey, .str "Y".data)]])]) =
      some (.obj [(typeKey, .str recipeTag), (nameKey, .str "Y".data)]) ∧
    find_recipe_in_jsonld (.arr [.obj [(typeKey, .str "Thing".data)],
        .obj [(typeKey, .str "Person".data)]]) = none :=
  ⟨find_recipe_eq_spec, rfl, rfl, rfl⟩

end ServerTest
